import Mathlib

/-!
Shallow embedding of the Wide Research fan-out engine
(`src/backend/agents/wide_research.py`, class `WideResearch`).

Modelling choices:
* Each item's Item-Processor call (the HTTP POST in `process_single_item`)
  is an oracle `proc : Nat → HttpResult` giving, per submission index, the
  outcome of that item's single API call: a 200 response with content, a
  non-200 status code, or a raised exception message.
* Wall-clock durations are abstracted as natural-number ticks; the
  per-item elapsed time is an oracle `el : Nat → Nat`.
* The cooperative (asyncio) concurrent execution of
  `asyncio.gather(*[process_with_progress(st) for st in subtasks])` is a
  small-step machine: a schedule (list of actions) nondeterministically
  interleaves "coroutine i acquires the semaphore and starts its call"
  and "coroutine i's call completes, it records its outcome, releases the
  semaphore, increments the shared `completed` counter and fires the
  progress callback".  `asyncio.gather` places task i's result at index i
  of the `tasks` list regardless of completion order, exactly as the
  updated `subtasks` are collected in the source.
* Python dict results of `execute` become the `Report` structure; the
  exact keys of the per-entry dict literals are recorded separately so
  that presence/absence of a key is statable.
* `execute` raising a Python exception is `Except.error`; the unguarded
  division `processing_time/len(items)` in the completion `print` at
  line 191 raises `ZeroDivisionError` when `items` is empty.
-/

/-- `class WideResearchStatus(Enum)`. -/
inductive WideResearchStatus
  | pending
  | processing
  | completed
  | failed
deriving DecidableEq, Repr

/-- The `.value` strings of `WideResearchStatus`. -/
def WideResearchStatus.value : WideResearchStatus → String
  | .pending => "pending"
  | .processing => "processing"
  | .completed => "completed"
  | .failed => "failed"

/-- `@dataclass class SubTask`. -/
structure SubTask (α : Type) where
  id : String
  item : α
  instruction : String
  status : WideResearchStatus := WideResearchStatus.pending
  result : Option String := none
  error : Option String := none
  processing_time : Nat := 0
deriving DecidableEq, Repr

/-- Outcome of one item's chat-completion HTTP call in
`process_single_item`: a 200 response whose parsed content is `content`,
a non-200 `status_code`, or a raised exception rendered by `str(e)`. -/
inductive HttpResult
  | ok (content : String)
  | statusErr (code : Nat)
  | exn (msg : String)
deriving DecidableEq, Repr

/-- Lines 112-124 of `process_single_item`: how one subtask is updated
from its HTTP call's outcome, including `processing_time`. -/
def finishTask {α : Type} (t : SubTask α) (r : HttpResult) (elapsed : Nat) : SubTask α :=
  match r with
  | .ok content =>
      { t with result := some content, status := WideResearchStatus.completed,
               processing_time := elapsed }
  | .statusErr code =>
      { t with error := some ("API error: " ++ toString code),
               status := WideResearchStatus.failed, processing_time := elapsed }
  | .exn msg =>
      { t with error := some msg, status := WideResearchStatus.failed,
               processing_time := elapsed }

/-- A status is terminal when the subtask has been fully processed. -/
def isTerminal : WideResearchStatus → Bool
  | .completed => true
  | .failed => true
  | _ => false

/-- Line 156-163 of `execute`: the subtask built for submission index `i`
(ids are `str(i + 1)`). -/
def mkSubTask {α : Type} (instr : String) (i : Nat) (a : α) : SubTask α :=
  { id := toString (i + 1), item := a, instruction := instr }

/-- State of the fan-out: the subtask list indexed by submission order,
the semaphore's free-permit count, the indices currently inside the
`async with self.semaphore` block, the shared `completed` counter and the
arguments of the progress-callback invocations so far, in call order. -/
structure ExecState (α : Type) where
  tasks : List (SubTask α)
  permits : Nat
  running : List Nat
  completedCount : Nat
  events : List (Nat × Nat)
deriving DecidableEq, Repr

/-- One scheduling action of the cooperative run: coroutine `i` acquires
the semaphore and issues its call, or coroutine `i`'s call completes. -/
inductive SchedAction
  | start (i : Nat)
  | finish (i : Nat)
deriving DecidableEq, Repr

/-- Small-step semantics of the gather phase.  `start i` is enabled when
subtask `i` is still pending and a permit is free: it takes the permit
and marks the subtask `PROCESSING` (line 80 of the source).  `finish i`
is enabled when subtask `i` is in flight: it records the call's outcome
(lines 112-124), releases the permit (end of `async with`), increments
the shared `completed` counter and appends the
`progress_callback(completed, len(subtasks))` arguments (lines 170-172). -/
def step {α : Type} (proc : Nat → HttpResult) (el : Nat → Nat)
    (s : ExecState α) : SchedAction → Option (ExecState α)
  | .start i =>
      match s.tasks[i]? with
      | some t =>
          if t.status = WideResearchStatus.pending ∧ 0 < s.permits then
            some { s with
              tasks := s.tasks.set i { t with status := WideResearchStatus.processing },
              permits := s.permits - 1,
              running := i :: s.running }
          else none
      | none => none
  | .finish i =>
      match s.tasks[i]? with
      | some t =>
          if t.status = WideResearchStatus.processing ∧ i ∈ s.running then
            some { s with
              tasks := s.tasks.set i (finishTask t (proc i) (el i)),
              permits := s.permits + 1,
              running := s.running.erase i,
              completedCount := s.completedCount + 1,
              events := s.events ++ [(s.completedCount + 1, s.tasks.length)] }
          else none
      | none => none

/-- Run a schedule: each action must be enabled when taken. -/
def run {α : Type} (proc : Nat → HttpResult) (el : Nat → Nat) :
    List SchedAction → ExecState α → Option (ExecState α)
  | [], s => some s
  | a :: acts, s => (step proc el s a).bind (run proc el acts)

/-- State at the start of the gather phase: all subtasks pending, all
`max_concurrent` permits free, nothing completed. -/
def initState {α : Type} (items : List α) (instr : String) (mc : Nat) : ExecState α :=
  { tasks := (items.enum).map (fun p => mkSubTask instr p.1 p.2),
    permits := mc, running := [], completedCount := 0, events := [] }

/-- `asyncio.gather` has returned: every subtask is terminal. -/
def allDoneB {α : Type} (s : ExecState α) : Bool :=
  s.tasks.all (fun t => isTerminal t.status)

/-- The subtask returned for submission index `i` carrying item `a`:
started, then finished from its own call's outcome. -/
def doneTask {α : Type} (instr : String) (proc : Nat → HttpResult) (el : Nat → Nat)
    (i : Nat) (a : α) : SubTask α :=
  finishTask { mkSubTask instr i a with status := WideResearchStatus.processing }
    (proc i) (el i)

/-- The full gather result in submission order, as dictated by the
per-item oracles alone. -/
def expectedFinal {α : Type} (items : List α) (instr : String)
    (proc : Nat → HttpResult) (el : Nat → Nat) : List (SubTask α) :=
  (items.enum).map (fun p => doneTask instr proc el p.1 p.2)

/-- One entry of the `"results"` list (lines 207-216 of `execute`). -/
structure ResultEntry (α : Type) where
  id : String
  item : α
  result : Option String
  processing_time : Nat
  status : String
deriving DecidableEq, Repr

/-- One entry of the `"failures"` list (lines 217-224 of `execute`): the
dict literal has exactly the keys `id`, `item`, `error`. -/
structure FailureEntry (α : Type) where
  id : String
  item : α
  error : Option String
deriving DecidableEq, Repr

/-- The keys of each `"results"` entry's dict literal, in source order. -/
def resultEntryKeys : List String :=
  ["id", "item", "result", "processing_time", "status"]

/-- The keys of each `"failures"` entry's dict literal, in source order. -/
def failureEntryKeys : List String :=
  ["id", "item", "error"]

/-- The dict returned by `execute` (lines 202-228). -/
structure Report (α : Type) where
  success : Bool
  total_items : Nat
  successful_count : Nat
  failed_count : Nat
  results : List (ResultEntry α)
  failures : List (FailureEntry α)
  synthesis : Option String
  total_processing_time : Nat
  average_time_per_item : Nat
deriving DecidableEq, Repr

/-- Python truthiness of the `synthesis_prompt: Optional[str]` argument:
`None` and the empty string are falsy. -/
def pyTruthy : Option String → Bool
  | none => false
  | some s => !s.isEmpty

/-- Lines 181-228 of `execute` after the gather phase: partition the
collected subtasks by status, optionally run `_synthesize_results` over
the successful results (the synthesizer itself is an oracle
`synthFn`, which may return Python `None`), and build the returned dict.
The second component records whether `_synthesize_results` was invoked. -/
def buildReport {α : Type} (items : List α) (s : ExecState α)
    (synthesis_prompt : Option String)
    (synthFn : List (Option String) → Option String)
    (totalTime : Nat) : Report α × Bool :=
  let successful := s.tasks.filter (fun t => decide (t.status = WideResearchStatus.completed))
  let failed := s.tasks.filter (fun t => decide (t.status = WideResearchStatus.failed))
  let invoked := pyTruthy synthesis_prompt && !successful.isEmpty
  let synthesis := if invoked then synthFn (successful.map (fun t => t.result)) else none
  ({ success := true,
     total_items := items.length,
     successful_count := successful.length,
     failed_count := failed.length,
     results := successful.map (fun t =>
       { id := t.id, item := t.item, result := t.result,
         processing_time := t.processing_time, status := t.status.value }),
     failures := failed.map (fun t =>
       { id := t.id, item := t.item, error := t.error }),
     synthesis := synthesis,
     total_processing_time := totalTime,
     average_time_per_item :=
       if items.length = 0 then 0 else totalTime / items.length },
   invoked)

/-- `WideResearch.execute` for one scheduling of the gather phase.
`none` means the schedule is not a complete valid run (an artifact of the
model, not a program behaviour); `some (Except.error e)` means `execute`
raised the Python exception `e`; `some (Except.ok (r, b))` means it
returned report `r`, with `b` recording whether the Synthesizer ran.
After the gather, the completion summary `print` at line 191 evaluates
`processing_time/len(items)` with no emptiness guard, so an empty item
list raises `ZeroDivisionError` before the report is built. -/
def executeResult {α : Type} (items : List α) (instr : String)
    (synthesis_prompt : Option String)
    (proc : Nat → HttpResult) (el : Nat → Nat) (mc : Nat)
    (synthFn : List (Option String) → Option String) (totalTime : Nat)
    (acts : List SchedAction) : Option (Except String (Report α × Bool)) :=
  match run proc el acts (initState items instr mc) with
  | none => none
  | some s =>
      if allDoneB s then
        some (if items.length = 0 then
                Except.error "ZeroDivisionError: float division by zero"
              else
                Except.ok (buildReport items s synthesis_prompt synthFn totalTime))
      else none

/-- `asyncio.Semaphore.__init__`: `if value < 0: raise ValueError(...)`. -/
def semaphoreInit (value : Int) : Except String Nat :=
  if value < 0 then Except.error "Semaphore initial value must be >= 0"
  else Except.ok value.toNat

/-- `WideResearch.__init__` (lines 55-64): stores `max_concurrent` and
constructs `asyncio.Semaphore(max_concurrent)`; the only validation is
the Semaphore's own non-negativity check. -/
def wideResearchInit (max_concurrent : Int) : Except String (Int × Nat) :=
  match semaphoreInit max_concurrent with
  | Except.error e => Except.error e
  | Except.ok sem => Except.ok (max_concurrent, sem)

/-- Whether a modelled Python call raised (`Except.error`). -/
def isPyError {e a : Type} : Except e a → Bool
  | Except.error _ => true
  | Except.ok _ => false

/-- The error message recorded on a failed subtask, per the HTTP outcome. -/
def errOf : HttpResult → Option String
  | .ok _ => none
  | .statusErr code => some ("API error: " ++ toString code)
  | .exn msg => some msg

/-! Concrete demonstration scenario used by the witness theorems: two
items, `max_concurrent = 2`, item 1 succeeds, item 2's call raises; the
schedule completes item 2 before item 1 (out of submission order). -/

def demoItems : List String := ["alpha", "beta"]

def demoProc : Nat → HttpResult :=
  fun i => if i = 0 then HttpResult.ok "analysis-alpha" else HttpResult.exn "boom"

def demoEl : Nat → Nat := fun i => i + 3

def demoActs : List SchedAction :=
  [SchedAction.start 0, SchedAction.start 1,
   SchedAction.finish 1, SchedAction.finish 0]

def demoSynthFn : List (Option String) → Option String :=
  fun rs => some ("combined:" ++ toString rs.length)

def demoFinal : ExecState String :=
  (run demoProc demoEl demoActs (initState demoItems "analyze" 2)).getD
    (initState demoItems "analyze" 2)

/-- A second scenario where every item fails, for the run-level success
flag: one item whose call returns HTTP status 500. -/
def demoFailProc : Nat → HttpResult := fun _ => HttpResult.statusErr 500

def demoFailActs : List SchedAction :=
  [SchedAction.start 0, SchedAction.finish 0]

/-- Mid-run state of the demo schedule: both items started, none done. -/
def demoMid : ExecState String :=
  (run demoProc demoEl [SchedAction.start 0, SchedAction.start 1]
    (initState demoItems "analyze" 2)).getD (initState demoItems "analyze" 2)

def demoReport : Report String × Bool :=
  buildReport demoItems demoFinal (some "synth") demoSynthFn 10

/-- Same run with no combining instruction: the synthesis-skip case. -/
def demoSkipReport : Report String × Bool :=
  buildReport demoItems demoFinal none demoSynthFn 10

def demoFailFinal : ExecState String :=
  (run demoFailProc demoEl demoFailActs (initState ["a"] "do" 1)).getD
    (initState ["a"] "do" 1)

def demoFailReport : Report String × Bool :=
  buildReport ["a"] demoFailFinal (some "combine") (fun _ => some "x") 5

/-! ### Invariants of the gather phase -/

/-- The subtask at index `i` after it acquired a permit and before its
call returned. -/
def procSubTask {α : Type} (instr : String) (i : Nat) (a : α) : SubTask α :=
  { mkSubTask instr i a with status := WideResearchStatus.processing }

/-- Every subtask is in one of its three lifecycle shapes, at its own
submission index. -/
def TasksInv {α : Type} (items : List α) (instr : String) (proc : Nat → HttpResult)
    (el : Nat → Nat) (ts : List (SubTask α)) : Prop :=
  ts.length = items.length ∧
  ∀ i a, items[i]? = some a →
    ts[i]? = some (mkSubTask instr i a) ∨
    ts[i]? = some (procSubTask instr i a) ∨
    ts[i]? = some (doneTask instr proc el i a)

/-- Run invariant: subtask shapes, semaphore conservation (free permits
plus in-flight units always equal `max_concurrent`), the `completed`
counter counts terminal subtasks, and the progress events so far are
`(1, N), ..., (completedCount, N)`. -/
def StateInv {α : Type} (items : List α) (instr : String) (proc : Nat → HttpResult)
    (el : Nat → Nat) (mc : Nat) (s : ExecState α) : Prop :=
  TasksInv items instr proc el s.tasks ∧
  s.permits + s.running.length = mc ∧
  s.completedCount = s.tasks.countP (fun t => isTerminal t.status) ∧
  s.events = (List.range s.completedCount).map (fun k => (k + 1, items.length))

lemma isTerminal_finishTask {α : Type} (t : SubTask α) (r : HttpResult) (e : Nat) :
    isTerminal (finishTask t r e).status = true := by
  cases r <;> rfl

lemma isTerminal_doneTask {α : Type} (instr : String) (proc : Nat → HttpResult)
    (el : Nat → Nat) (i : Nat) (a : α) :
    isTerminal (doneTask instr proc el i a).status = true :=
  isTerminal_finishTask _ _ _

lemma countP_set_congr {α : Type} (p : α → Bool) :
    ∀ (l : List α) (i : Nat) (t a : α), l[i]? = some t → p t = p a →
      (l.set i a).countP p = l.countP p
  | [], i, t, a, h, _ => by simp at h
  | x :: xs, 0, t, a, h, hpa => by
      simp only [List.getElem?_cons_zero, Option.some.injEq] at h
      subst h
      simp only [List.set, List.countP_cons, hpa]
  | x :: xs, i + 1, t, a, h, hpa => by
      simp only [List.getElem?_cons_succ] at h
      simp only [List.set, List.countP_cons,
        countP_set_congr p xs i t a h hpa]

lemma countP_set_flip {α : Type} (p : α → Bool) :
    ∀ (l : List α) (i : Nat) (t a : α), l[i]? = some t → p t = false → p a = true →
      (l.set i a).countP p = l.countP p + 1
  | [], i, t, a, h, _, _ => by simp at h
  | x :: xs, 0, t, a, h, hpt, hpa => by
      simp only [List.getElem?_cons_zero, Option.some.injEq] at h
      subst h
      simp [List.set, List.countP_cons, hpt, hpa]
  | x :: xs, i + 1, t, a, h, hpt, hpa => by
      simp only [List.getElem?_cons_succ] at h
      simp only [List.set, List.countP_cons,
        countP_set_flip p xs i t a h hpt hpa]
      omega

lemma step_preserves {α : Type} {items : List α} {instr : String}
    {proc : Nat → HttpResult} {el : Nat → Nat} {mc : Nat} {s s' : ExecState α}
    {a : SchedAction} (hinv : StateInv items instr proc el mc s)
    (hs : step proc el s a = some s') : StateInv items instr proc el mc s' := by
  obtain ⟨⟨hlen, htri⟩, hperm, hcnt, hev⟩ := hinv
  cases a with
  | start i =>
      cases ht : s.tasks[i]? with
      | none => simp [step, ht] at hs
      | some t =>
          simp only [step, ht] at hs
          split at hs
          case isFalse => exact absurd hs (by simp)
          case isTrue hc =>
            obtain ⟨hpend, hpos⟩ := hc
            simp only [Option.some.injEq] at hs
            subst hs
            have hi : i < s.tasks.length := by
              rcases List.getElem?_eq_some.mp ht with ⟨h, -⟩
              exact h
            refine ⟨⟨by simpa using hlen, ?_⟩, ?_, ?_, ?_⟩
            · intro j b hjb
              by_cases hij : j = i
              · subst hij
                rcases htri j b hjb with h3 | h3 | h3
                · rw [ht] at h3
                  simp only [Option.some.injEq] at h3
                  subst h3
                  right; left
                  simp [List.getElem?_set_self hi, procSubTask]
                · rw [ht] at h3
                  simp only [Option.some.injEq] at h3
                  subst h3
                  simp [procSubTask, mkSubTask] at hpend
                · rw [ht] at h3
                  simp only [Option.some.injEq] at h3
                  subst h3
                  have hterm := isTerminal_doneTask instr proc el j b
                  rw [hpend] at hterm
                  simp [isTerminal] at hterm
              · have hne : i ≠ j := fun h => hij h.symm
                rw [List.getElem?_set_ne hne]
                exact htri j b hjb
            · simp only [List.length_cons]
              omega
            · simp only []
              rw [hcnt]
              exact (countP_set_congr _ s.tasks i t _ ht (by rw [hpend]; rfl)).symm
            · exact hev
  | finish i =>
      cases ht : s.tasks[i]? with
      | none => simp [step, ht] at hs
      | some t =>
          simp only [step, ht] at hs
          split at hs
          case isFalse => exact absurd hs (by simp)
          case isTrue hc =>
            obtain ⟨hproc2, hmem⟩ := hc
            simp only [Option.some.injEq] at hs
            subst hs
            have hi : i < s.tasks.length := by
              rcases List.getElem?_eq_some.mp ht with ⟨h, -⟩
              exact h
            have hrlen : 0 < s.running.length := List.length_pos.mpr (List.ne_nil_of_mem hmem)
            refine ⟨⟨by simpa using hlen, ?_⟩, ?_, ?_, ?_⟩
            · intro j b hjb
              by_cases hij : j = i
              · subst hij
                rcases htri j b hjb with h3 | h3 | h3
                · rw [ht] at h3
                  simp only [Option.some.injEq] at h3
                  subst h3
                  simp [mkSubTask] at hproc2
                · rw [ht] at h3
                  simp only [Option.some.injEq] at h3
                  subst h3
                  right; right
                  rw [List.getElem?_set_self hi]
                  rfl
                · rw [ht] at h3
                  simp only [Option.some.injEq] at h3
                  subst h3
                  have hterm := isTerminal_doneTask instr proc el j b
                  rw [hproc2] at hterm
                  simp [isTerminal] at hterm
              · have hne : i ≠ j := fun h => hij h.symm
                rw [List.getElem?_set_ne hne]
                exact htri j b hjb
            · have := List.length_erase_of_mem hmem
              simp only [this]
              omega
            · simp only []
              rw [hcnt]
              rw [countP_set_flip _ s.tasks i t _ ht (by rw [hproc2]; rfl)
                (isTerminal_finishTask t (proc i) (el i))]
            · simp only []
              rw [hev, hcnt, hlen]
              rw [← hcnt, List.range_succ, List.map_append]
              simp

lemma run_preserves {α : Type} {items : List α} {instr : String}
    {proc : Nat → HttpResult} {el : Nat → Nat} {mc : Nat} :
    ∀ (acts : List SchedAction) (s s' : ExecState α),
      StateInv items instr proc el mc s →
      run proc el acts s = some s' → StateInv items instr proc el mc s'
  | [], s, s', hinv, h => by
      simp only [run, Option.some.injEq] at h
      subst h
      exact hinv
  | a :: acts, s, s', hinv, h => by
      rw [run] at h
      cases hstep : step proc el s a with
      | none => rw [hstep] at h; simp at h
      | some s1 =>
          rw [hstep] at h
          simp only [Option.some_bind] at h
          exact run_preserves acts s1 s' (step_preserves hinv hstep) h

lemma initState_inv {α : Type} (items : List α) (instr : String)
    (proc : Nat → HttpResult) (el : Nat → Nat) (mc : Nat) :
    StateInv items instr proc el mc (initState items instr mc) := by
  refine ⟨⟨by simp [initState], ?_⟩, by simp [initState], ?_, by simp [initState]⟩
  · intro i a hia
    left
    simp [initState, List.getElem?_enum, hia]
  · show (0 : Nat) = _
    symm
    rw [List.countP_eq_zero]
    intro t ht
    simp only [initState, List.mem_map] at ht
    obtain ⟨p, -, hp⟩ := ht
    subst hp
    simp [mkSubTask, isTerminal]

lemma run_inv {α : Type} {items : List α} {instr : String}
    {proc : Nat → HttpResult} {el : Nat → Nat} {mc : Nat}
    {acts : List SchedAction} {s : ExecState α}
    (hrun : run proc el acts (initState items instr mc) = some s) :
    StateInv items instr proc el mc s :=
  run_preserves acts _ s (initState_inv items instr proc el mc) hrun

lemma allDone_forall {α : Type} {s : ExecState α} (hdone : allDoneB s = true) :
    ∀ t ∈ s.tasks, isTerminal t.status = true := by
  simpa [allDoneB, List.all_eq_true] using hdone

lemma run_final_tasks {α : Type} {items : List α} {instr : String}
    {proc : Nat → HttpResult} {el : Nat → Nat} {mc : Nat}
    {acts : List SchedAction} {s : ExecState α}
    (hrun : run proc el acts (initState items instr mc) = some s)
    (hdone : allDoneB s = true) :
    s.tasks = expectedFinal items instr proc el := by
  obtain ⟨⟨hlen, htri⟩, -, -, -⟩ := run_inv hrun
  have hall := allDone_forall hdone
  apply List.ext_getElem?
  intro n
  cases hn : items[n]? with
  | none =>
      have h1 : items.length ≤ n := by
        by_contra hlt
        push_neg at hlt
        rcases List.getElem?_eq_some.mpr ⟨hlt, rfl⟩ with h2
        rw [hn] at h2
        exact Option.noConfusion h2
      rw [List.getElem?_eq_none (by rw [hlen]; exact h1),
          List.getElem?_eq_none (by simpa [expectedFinal] using h1)]
  | some a =>
      rcases htri n a hn with h3 | h3 | h3
      · have := hall _ (List.getElem?_mem h3)
        simp [mkSubTask, isTerminal] at this
      · have := hall _ (List.getElem?_mem h3)
        simp [procSubTask, mkSubTask, isTerminal] at this
      · rw [h3]
        simp [expectedFinal, List.getElem?_enum, hn]

lemma run_final_count {α : Type} {items : List α} {instr : String}
    {proc : Nat → HttpResult} {el : Nat → Nat} {mc : Nat}
    {acts : List SchedAction} {s : ExecState α}
    (hrun : run proc el acts (initState items instr mc) = some s)
    (hdone : allDoneB s = true) :
    s.completedCount = items.length := by
  obtain ⟨⟨hlen, -⟩, -, hcnt, -⟩ := run_inv hrun
  rw [hcnt, List.countP_eq_length.mpr (allDone_forall hdone), hlen]

lemma expectedFinal_length {α : Type} (items : List α) (instr : String)
    (proc : Nat → HttpResult) (el : Nat → Nat) :
    (expectedFinal items instr proc el).length = items.length := by
  simp [expectedFinal]

lemma filter_status_partition {α : Type} :
    ∀ (ts : List (SubTask α)), (∀ t ∈ ts, isTerminal t.status = true) →
      (ts.filter (fun t => decide (t.status = WideResearchStatus.completed))).length +
        (ts.filter (fun t => decide (t.status = WideResearchStatus.failed))).length = ts.length
  | [], _ => rfl
  | t :: ts, h => by
      have ht := h t (by simp)
      have hrest := filter_status_partition ts (fun u hu => h u (by simp [hu]))
      cases hst : t.status with
      | pending => rw [hst] at ht; simp [isTerminal] at ht
      | processing => rw [hst] at ht; simp [isTerminal] at ht
      | completed =>
          simp [List.filter_cons, hst]
          omega
      | failed =>
          simp [List.filter_cons, hst]
          omega

lemma executeResult_ok_inv {α : Type} {items : List α} {instr : String}
    {sp : Option String} {proc : Nat → HttpResult} {el : Nat → Nat} {mc : Nat}
    {synthFn : List (Option String) → Option String} {tt : Nat}
    {acts : List SchedAction} {r : Report α} {b : Bool}
    (h : executeResult items instr sp proc el mc synthFn tt acts =
      some (Except.ok (r, b))) :
    ∃ s, run proc el acts (initState items instr mc) = some s ∧ allDoneB s = true ∧
      items.length ≠ 0 ∧ buildReport items s sp synthFn tt = (r, b) := by
  unfold executeResult at h
  cases hrun : run proc el acts (initState items instr mc) with
  | none => rw [hrun] at h; exact absurd h (by simp)
  | some s =>
      rw [hrun] at h
      dsimp only at h
      by_cases hd : allDoneB s = true
      · rw [if_pos hd] at h
        simp only [Option.some.injEq] at h
        by_cases hz : items.length = 0
        · rw [if_pos hz] at h
          exact absurd h (by simp)
        · rw [if_neg hz] at h
          simp only [Except.ok.injEq] at h
          exact ⟨s, rfl, hd, hz, h⟩
      · rw [if_neg hd] at h
        exact absurd h (by simp)

lemma step_stuck {α : Type} (proc : Nat → HttpResult) (el : Nat → Nat)
    (s : ExecState α) (hp : s.permits = 0) (hr : s.running = [])
    (a : SchedAction) : step proc el s a = none := by
  cases a with
  | start i =>
      cases ht : s.tasks[i]? with
      | none => simp [step, ht]
      | some t => simp [step, ht, hp]
  | finish i =>
      cases ht : s.tasks[i]? with
      | none => simp [step, ht]
      | some t => simp [step, ht, hr]

lemma run_zero_stuck {α : Type} (proc : Nat → HttpResult) (el : Nat → Nat)
    (items : List α) (instr : String) :
    ∀ (acts : List SchedAction) (s : ExecState α),
      run proc el acts (initState items instr 0) = some s →
      s = initState items instr 0
  | [], s, h => by
      simp only [run, Option.some.injEq] at h
      exact h.symm
  | a :: acts, s, h => by
      rw [run, step_stuck proc el _ rfl rfl a] at h
      simp at h

lemma allDone_init_false {α : Type} (a : α) (as : List α) (instr : String)
    (mc : Nat) : allDoneB (initState (a :: as) instr mc) = false := rfl

lemma executeResult_zero_mc {α : Type} (a : α) (as : List α) (instr : String)
    (sp : Option String) (proc : Nat → HttpResult) (el : Nat → Nat)
    (sf : List (Option String) → Option String) (tt : Nat)
    (acts : List SchedAction) :
    executeResult (a :: as) instr sp proc el 0 sf tt acts = none := by
  unfold executeResult
  cases hrun : run proc el acts (initState (a :: as) instr 0) with
  | none => rfl
  | some s =>
      have hs := run_zero_stuck proc el (a :: as) instr acts s hrun
      subst hs
      dsimp only
      rw [if_neg (by simp [allDone_init_false])]

lemma doneTask_fail {α : Type} (instr : String) (proc : Nat → HttpResult)
    (el : Nat → Nat) (i : Nat) (a : α) (hfail : errOf (proc i) ≠ none) :
    (doneTask instr proc el i a).status = WideResearchStatus.failed ∧
    (doneTask instr proc el i a).error = errOf (proc i) := by
  unfold errOf at hfail
  unfold doneTask finishTask errOf
  cases hp : proc i with
  | ok c => rw [hp] at hfail; simp at hfail
  | statusErr c => exact ⟨rfl, rfl⟩
  | exn m => exact ⟨rfl, rfl⟩

/-! ### The claims -/

/-- C1: for every item list (any N ≥ 0), any `max_concurrent ≥ 1` and
every schedule of the concurrent units — i.e. regardless of the order in
which units complete — the gather phase of `WideResearch.execute`
produces one outcome per item, in submission order: the final subtask
list equals `expectedFinal`, whose `i`-th element is the terminal
outcome of the `i`-th submitted item, and its length is the item count. -/
theorem wideResearch_execute_preserves_order {α : Type} (items : List α)
    (instr : String) (proc : Nat → HttpResult) (el : Nat → Nat) (mc : Nat)
    (acts : List SchedAction) (s : ExecState α) (_hmc : 1 ≤ mc)
    (hrun : run proc el acts (initState items instr mc) = some s)
    (hdone : allDoneB s = true) :
    s.tasks = expectedFinal items instr proc el ∧
    s.tasks.length = items.length := by
  have hfin := run_final_tasks hrun hdone
  exact ⟨hfin, by rw [hfin, expectedFinal_length]⟩

/-- Witness for C1, on the demo run whose schedule completes item 2
before item 1. -/
theorem wideResearch_execute_preserves_order_witness :
    demoFinal.tasks = expectedFinal demoItems "analyze" demoProc demoEl ∧
    demoFinal.tasks.length = demoItems.length :=
  wideResearch_execute_preserves_order demoItems "analyze" demoProc demoEl 2
    demoActs demoFinal (by decide) rfl rfl

/-- C2: in every `RunReport` returned by `WideResearch.execute`, the
number of succeeded outcomes plus the number of failed outcomes equals
the total number of submitted items: every item ends in exactly one of
the two terminal states. -/
theorem wideResearch_report_counts_partition {α : Type} (items : List α)
    (instr : String) (sp : Option String) (proc : Nat → HttpResult)
    (el : Nat → Nat) (mc : Nat) (synthFn : List (Option String) → Option String)
    (tt : Nat) (acts : List SchedAction) (r : Report α) (b : Bool)
    (h : executeResult items instr sp proc el mc synthFn tt acts =
      some (Except.ok (r, b))) :
    r.successful_count + r.failed_count = r.total_items := by
  obtain ⟨s, hrun, hdone, -, hbr⟩ := executeResult_ok_inv h
  obtain ⟨⟨hlen, -⟩, -, -, -⟩ := run_inv hrun
  have hr : r = (buildReport items s sp synthFn tt).1 := by rw [hbr]
  subst hr
  simp only [buildReport]
  rw [filter_status_partition s.tasks (allDone_forall hdone)]
  exact hlen

/-- Witness for C2 on the demo run (one success, one failure). -/
theorem wideResearch_report_counts_partition_witness :
    (demoReport.1).successful_count + (demoReport.1).failed_count =
      (demoReport.1).total_items :=
  wideResearch_report_counts_partition demoItems "analyze" (some "synth")
    demoProc demoEl 2 demoSynthFn 10 demoActs demoReport.1 demoReport.2 rfl

/-- C3 (code bug): the spec requires that an empty item list return a
report with `total = 0` and `averagePerItem = 0`, every division by the
item count being guarded.  The code guards the division in the returned
dict (line 227) but not the one in the completion summary `print` at
line 191, so `execute([])` raises `ZeroDivisionError` instead of
returning: the model evaluates `executeResult` at the failing input. -/
theorem wideResearch_empty_items_raises :
    executeResult ([] : List String) "summarize" none (fun _ => HttpResult.ok "r")
      (fun _ => 1) 10 (fun _ => none) 7 [] =
      some (Except.error "ZeroDivisionError: float division by zero") := rfl

/-- C4: one item's Item-Processor call failing (non-200 status or raised
exception) yields a `FAILED` outcome carrying that error for that item
only; every sibling item still reaches exactly the terminal outcome its
own call dictates — nothing is cancelled, aborted or left unprocessed. -/
theorem wideResearch_single_failure_isolated {α : Type} (items : List α)
    (instr : String) (proc : Nat → HttpResult) (el : Nat → Nat) (mc : Nat)
    (acts : List SchedAction) (s : ExecState α) (i : Nat) (a : α)
    (hrun : run proc el acts (initState items instr mc) = some s)
    (hdone : allDoneB s = true)
    (hi : items[i]? = some a)
    (hfail : errOf (proc i) ≠ none) :
    s.tasks[i]? = some (doneTask instr proc el i a) ∧
    (doneTask instr proc el i a).status = WideResearchStatus.failed ∧
    (doneTask instr proc el i a).error = errOf (proc i) ∧
    s.tasks = expectedFinal items instr proc el := by
  have hfin := run_final_tasks hrun hdone
  obtain ⟨hst, herr⟩ := doneTask_fail instr proc el i a hfail
  refine ⟨?_, hst, herr, hfin⟩
  rw [hfin]
  simp [expectedFinal, List.getElem?_enum, hi]

/-- Witness for C4: in the demo run item 2's call raises `boom`, item 1
still succeeds. -/
theorem wideResearch_single_failure_isolated_witness :
    demoFinal.tasks[1]? = some (doneTask "analyze" demoProc demoEl 1 "beta") ∧
    (doneTask "analyze" demoProc demoEl 1 "beta").status = WideResearchStatus.failed ∧
    (doneTask "analyze" demoProc demoEl 1 "beta").error = errOf (demoProc 1) ∧
    demoFinal.tasks = expectedFinal demoItems "analyze" demoProc demoEl :=
  wideResearch_single_failure_isolated demoItems "analyze" demoProc demoEl 2
    demoActs demoFinal 1 "beta" rfl rfl rfl (by decide)

/-- C5: over any complete run of N items, the progress-callback argument
log is exactly `(1, N), (2, N), ..., (N, N)`: the callback is invoked
exactly N times, its second argument is constantly the total N, and its
first argument is strictly increasing from 1 to N.  (`events` records
the `progress_callback(completed, len(subtasks))` invocations made when
a callback is supplied; the shared counter increment is atomic since
asyncio interleaves coroutines only at await points.) -/
theorem wideResearch_progress_callback_sequence {α : Type} (items : List α)
    (instr : String) (proc : Nat → HttpResult) (el : Nat → Nat) (mc : Nat)
    (acts : List SchedAction) (s : ExecState α)
    (hrun : run proc el acts (initState items instr mc) = some s)
    (hdone : allDoneB s = true) :
    s.events = (List.range items.length).map (fun k => (k + 1, items.length)) := by
  obtain ⟨-, -, -, hev⟩ := run_inv hrun
  rw [hev, run_final_count hrun hdone]

/-- Witness for C5 on the demo run. -/
theorem wideResearch_progress_callback_sequence_witness :
    demoFinal.events =
      (List.range demoItems.length).map (fun k => (k + 1, demoItems.length)) :=
  wideResearch_progress_callback_sequence demoItems "analyze" demoProc demoEl 2
    demoActs demoFinal rfl rfl

/-- C6: the Synthesizer is not invoked and the report's `synthesis`
field is `None` whenever no (truthy) combining instruction was supplied
or the succeeded set is empty — even if the other condition holds; and
when both conditions hold the synthesis phase runs exactly over the
succeeded outcomes' results. -/
theorem wideResearch_synthesis_skip {α : Type} (items : List α)
    (instr : String) (sp : Option String) (proc : Nat → HttpResult)
    (el : Nat → Nat) (mc : Nat) (synthFn : List (Option String) → Option String)
    (tt : Nat) (acts : List SchedAction) (r : Report α) (b : Bool)
    (h : executeResult items instr sp proc el mc synthFn tt acts =
      some (Except.ok (r, b))) :
    (b = true ↔ (pyTruthy sp = true ∧ r.results ≠ [])) ∧
    (b = false → r.synthesis = none) ∧
    (b = true → r.synthesis = synthFn (r.results.map (fun e => e.result))) := by
  obtain ⟨s, -, -, -, hbr⟩ := executeResult_ok_inv h
  have hr : r = (buildReport items s sp synthFn tt).1 := by rw [hbr]
  have hb : b = (buildReport items s sp synthFn tt).2 := by rw [hbr]
  subst hr
  subst hb
  simp only [buildReport]
  constructor
  · constructor
    · intro hinv
      rw [Bool.and_eq_true, Bool.not_eq_true'] at hinv
      refine ⟨hinv.1, ?_⟩
      simp only [ne_eq, List.map_eq_nil_iff]
      exact fun hnil => by rw [hnil] at hinv; simp at hinv
    · rintro ⟨h1, h2⟩
      rw [Bool.and_eq_true, Bool.not_eq_true']
      refine ⟨h1, ?_⟩
      simp only [ne_eq, List.map_eq_nil_iff] at h2
      exact List.isEmpty_eq_false.mpr h2
  · constructor
    · intro hinv
      rw [hinv]
      rfl
    · intro hinv
      rw [hinv]
      simp only [if_true]
      rw [List.map_map]
      rfl

/-- Witness for C6 on the demo run with no combining instruction: the
Synthesizer is skipped and `synthesis` is `None` although an item
succeeded. -/
theorem wideResearch_synthesis_skip_witness :
    (demoSkipReport.2 = true ↔
      (pyTruthy none = true ∧ (demoSkipReport.1).results ≠ [])) ∧
    (demoSkipReport.2 = false → (demoSkipReport.1).synthesis = none) ∧
    (demoSkipReport.2 = true → (demoSkipReport.1).synthesis =
      demoSynthFn ((demoSkipReport.1).results.map (fun e => e.result))) :=
  wideResearch_synthesis_skip demoItems "analyze" none demoProc demoEl 2
    demoSynthFn 10 demoActs demoSkipReport.1 demoSkipReport.2 rfl

/-- C7 counterexample: `max_concurrent = 0` satisfies `maxConcurrent < 1`
yet `WideResearch.__init__` accepts it: `asyncio.Semaphore(0)` does not
raise, so the run is not failed immediately. -/
theorem wideResearch_semaphore_zero_accepted :
    ((0 : Int) < 1) ∧ wideResearchInit 0 = Except.ok (0, 0) :=
  ⟨by decide, rfl⟩

/-- C7 amended: only `max_concurrent < 0` fails immediately at
construction (the `asyncio.Semaphore` value check raises `ValueError`
before any scheduling); `max_concurrent = 0` is accepted, and the run
then deadlocks — with a 0-permit semaphore no schedule can ever
complete the gather phase, e.g. for a single-item list. -/
theorem wideResearch_init_validation :
    (∀ mc : Int, isPyError (wideResearchInit mc) = true ↔ mc < 0) ∧
    (∀ (proc : Nat → HttpResult) (el : Nat → Nat)
        (sf : List (Option String) → Option String) (tt : Nat)
        (acts : List SchedAction),
      executeResult ["solo-item"] "analyze" none proc el 0 sf tt acts = none) := by
  constructor
  · intro mc
    unfold wideResearchInit semaphoreInit
    by_cases h : mc < 0
    · rw [if_pos h]
      simp [isPyError, h]
    · rw [if_neg h]
      simp [isPyError, h]
  · intro proc el sf tt acts
    exact executeResult_zero_mc "solo-item" [] "analyze" none proc el sf tt acts

/-- C8 counterexample: the claim says each failed entry carries the
elapsed processing duration, like succeeded entries do; but the
`"failures"` dict literal (lines 217-224) has exactly the keys `id`,
`item`, `error` — `processing_time` appears only in the `"results"`
literal. -/
theorem wideResearch_failure_entry_no_elapsed :
    ("processing_time" ∈ resultEntryKeys) ∧
    ("processing_time" ∉ failureEntryKeys) := by decide

/-- C8 amended: in every returned report, each succeeded entry carries
`id`, `item`, `result`, `processing_time` and `status`, while each
failed entry carries only `id`, `item` and `error`: the elapsed
duration is recorded on the failed `SubTask` (its `processing_time`
field is set at line 124) but is omitted from the `"failures"` list. -/
theorem wideResearch_entry_fields {α : Type} (items : List α)
    (instr : String) (sp : Option String) (proc : Nat → HttpResult)
    (el : Nat → Nat) (mc : Nat) (synthFn : List (Option String) → Option String)
    (tt : Nat) (acts : List SchedAction) (r : Report α) (b : Bool)
    (h : executeResult items instr sp proc el mc synthFn tt acts =
      some (Except.ok (r, b))) :
    r.failures = ((expectedFinal items instr proc el).filter
        (fun t => decide (t.status = WideResearchStatus.failed))).map
        (fun t => { id := t.id, item := t.item, error := t.error }) ∧
    r.results = ((expectedFinal items instr proc el).filter
        (fun t => decide (t.status = WideResearchStatus.completed))).map
        (fun t => { id := t.id, item := t.item, result := t.result,
                    processing_time := t.processing_time,
                    status := t.status.value }) := by
  obtain ⟨s, hrun, hdone, -, hbr⟩ := executeResult_ok_inv h
  have hfin := run_final_tasks hrun hdone
  have hr : r = (buildReport items s sp synthFn tt).1 := by rw [hbr]
  subst hr
  simp only [buildReport, hfin]
  exact ⟨trivial, trivial⟩

/-- Witness for C8's amended claim on the demo run. -/
theorem wideResearch_entry_fields_witness :
    (demoReport.1).failures = ((expectedFinal demoItems "analyze" demoProc demoEl).filter
        (fun t => decide (t.status = WideResearchStatus.failed))).map
        (fun t => { id := t.id, item := t.item, error := t.error }) ∧
    (demoReport.1).results = ((expectedFinal demoItems "analyze" demoProc demoEl).filter
        (fun t => decide (t.status = WideResearchStatus.completed))).map
        (fun t => { id := t.id, item := t.item, result := t.result,
                    processing_time := t.processing_time,
                    status := t.status.value }) :=
  wideResearch_entry_fields demoItems "analyze" (some "synth") demoProc demoEl 2
    demoSynthFn 10 demoActs demoReport.1 demoReport.2 rfl

/-- C9: along every reachable state of every run, the number of units
inside the semaphore-protected section never exceeds `max_concurrent`,
because free permits plus in-flight units are conserved at exactly
`max_concurrent`.  The conservation holds for an arbitrary `proc`
oracle — including calls that fail with a status error or an exception —
which is precisely the guarantee that the permit is released on every
exit path of the protected section. -/
theorem wideResearch_concurrency_bounded {α : Type} (items : List α)
    (instr : String) (proc : Nat → HttpResult) (el : Nat → Nat) (mc : Nat)
    (acts : List SchedAction) (s : ExecState α)
    (hrun : run proc el acts (initState items instr mc) = some s) :
    s.running.length ≤ mc ∧ s.permits + s.running.length = mc := by
  obtain ⟨-, hperm, -, -⟩ := run_inv hrun
  exact ⟨by omega, hperm⟩

/-- Witness for C9 at the mid-run state with both demo items in flight. -/
theorem wideResearch_concurrency_bounded_witness :
    demoMid.running.length ≤ 2 ∧ demoMid.permits + demoMid.running.length = 2 :=
  wideResearch_concurrency_bounded demoItems "analyze" demoProc demoEl 2
    [SchedAction.start 0, SchedAction.start 1] demoMid rfl

/-- C10 (implicit): every report returned by `WideResearch.execute` has
its top-level `"success"` flag constantly `True` (line 203), no matter
how many items failed; per-item failure is observable only through the
`failures` list and the counts. -/
theorem wideResearch_report_success_constant {α : Type} (items : List α)
    (instr : String) (sp : Option String) (proc : Nat → HttpResult)
    (el : Nat → Nat) (mc : Nat) (synthFn : List (Option String) → Option String)
    (tt : Nat) (acts : List SchedAction) (r : Report α) (b : Bool)
    (h : executeResult items instr sp proc el mc synthFn tt acts =
      some (Except.ok (r, b))) :
    r.success = true := by
  obtain ⟨s, -, -, -, hbr⟩ := executeResult_ok_inv h
  have hr : r = (buildReport items s sp synthFn tt).1 := by rw [hbr]
  subst hr
  rfl

/-- Witness for C10 on a run where every item fails (HTTP 500): the
report still says `success = True`. -/
theorem wideResearch_report_success_constant_witness :
    (demoFailReport.1).success = true :=
  wideResearch_report_success_constant ["a"] "do" (some "combine") demoFailProc
    demoEl 1 (fun _ => some "x") 5 demoFailActs demoFailReport.1 demoFailReport.2 rfl
